import Mathlib

/-!
Verification of libcsvkit (CSV parsing and writing library).

This file gives a shallow embedding of the character-level CSV parser state
machine of src/parser.c and the row encoder of src/writer.c, and proves the
claims of the specification against it.

Modelling conventions:
* a character source (the SOURCE_STRING case of the C code) is a
  value of type List Char; reading a character is taking the head, the
  one-character push-back (unread_char) is restoring the head;
* the growable character buffer and the growable field array are Lean lists;
  allocation never fails, so the CSVKIT_ERROR_MEMORY paths are not modelled;
* C strings are NUL-free lists of characters;
* nullable pointers (rows, fields) are modelled with Option;
* the per-row character loop of parse_row_internal is written with an
  explicit fuel argument so that the function is structurally recursive and
  computable by the kernel.  Every loop iteration consumes at least one input
  character, so fuel (input.length + 1) is always sufficient; the wrappers
  fix that fuel and lemma parseRowF_fuel_succ shows the choice is irrelevant.
-/

namespace Csvkit

/-- Dialect configuration, mirroring csvkit_config_t of include/csvkit.h. -/
structure csvkit_config_t where
  delimiter : Char
  quote_char : Char
  escape_char : Char
  trim_whitespace : Bool
  skip_empty_rows : Bool
  strict_mode : Bool
deriving DecidableEq, Repr

/-- Default configuration, mirroring csvkit_config_default of src/parser.c. -/
def csvkit_config_default : csvkit_config_t :=
  { delimiter := ','
    quote_char := '"'
    escape_char := '"'
    trim_whitespace := false
    skip_empty_rows := false
    strict_mode := false }

/-- Configuration validation of the parser, mirroring validate_config of
src/parser.c (the null-pointer case is not modelled: the argument is a value). -/
def parser_validate_config (c : csvkit_config_t) : Bool :=
  if c.delimiter = '\n' ∨ c.delimiter = '\r' then false
  else if c.escape_char = c.quote_char ∧ c.delimiter = c.quote_char then false
  else if c.delimiter = c.quote_char then false
  else if c.quote_char = '\n' ∨ c.quote_char = '\r' then false
  else if c.escape_char = '\n' ∨ c.escape_char = '\r' then false
  else true

/-- Configuration validation of the writer, mirroring validate_config of
src/writer.c. -/
def writer_validate_config (c : csvkit_config_t) : Bool :=
  if c.delimiter = '\n' ∨ c.delimiter = '\r' then false
  else if c.delimiter = c.quote_char then false
  else if c.quote_char = '\n' ∨ c.quote_char = '\r' then false
  else if c.escape_char = '\n' ∨ c.escape_char = '\r' then false
  else true

/-- Parser construction, mirroring csvkit_parser_new_with_config of
src/parser.c: validation failure returns NULL (here none), success returns a
parser object holding the configuration. -/
def csvkit_parser_new_with_config (c : csvkit_config_t) : Option csvkit_config_t :=
  if parser_validate_config c = true then some c else none

/-- Writer construction, mirroring csvkit_writer_new_with_config of
src/writer.c. -/
def csvkit_writer_new_with_config (c : csvkit_config_t) : Option csvkit_config_t :=
  if writer_validate_config c = true then some c else none

/-- Whitespace classification of C isspace in the C locale, applied by
trim_whitespace_inplace of src/parser.c. -/
def is_c_space (c : Char) : Bool :=
  c = ' ' ∨ c = '\t' ∨ c = '\n' ∨ c = '\x0b' ∨ c = '\x0c' ∨ c = '\r'

/-- Whitespace trimming, mirroring trim_whitespace_inplace of src/parser.c:
drop leading isspace characters, then drop trailing isspace characters (an
all-space string becomes empty). -/
def trim_whitespace_inplace (s : List Char) : List Char :=
  (((s.dropWhile is_c_space).reverse.dropWhile is_c_space).reverse)

/-- Finalization of one field, as done at the two field-closing sites of
parse_row_internal (src/parser.c lines 305-307 and 425-427): trim only when
trim_whitespace is set and the field was never quoted. -/
def finishField (cfg : csvkit_config_t) (fq : Bool) (buffer : List Char) : List Char :=
  if cfg.trim_whitespace = true ∧ fq = false then trim_whitespace_inplace buffer else buffer

/-- Result of parse_row_internal: a decoded row with the remaining input,
the CSVKIT_ERROR_EOF signal, or a CSVKIT_ERROR_PARSE error. -/
inductive RowRes where
  | ok (fields : List (List Char)) (rest : List Char)
  | eofSig (rest : List Char)
  | perr (rest : List Char)
deriving DecidableEq, Repr

/-- Code following the character loop of parse_row_internal (src/parser.c
lines 409-440): signal end-of-input for a pristine state at EOF, fail on an
unclosed quoted field, otherwise finalize and append the last field.
atEof records whether the loop ended because read_char returned EOF. -/
def finishRow (cfg : csvkit_config_t) (atEof : Bool) (buffer : List Char)
    (fields : List (List Char)) (iq fs fq : Bool) (rest : List Char) : RowRes :=
  if atEof = true ∧ buffer = [] ∧ fields = [] ∧ fs = false then RowRes.eofSig rest
  else if iq = true then RowRes.perr rest
  else RowRes.ok (fields ++ [finishField cfg fq buffer]) rest

/-- Outcome of one iteration of the character loop of parse_row_internal:
either continue the loop in a new state, or leave the loop with a result. -/
inductive StepOut where
  | cont (input buffer : List Char) (fields : List (List Char)) (iq fs fq : Bool)
  | halt (res : RowRes)
deriving DecidableEq, Repr

/-- One iteration of the character loop of parse_row_internal (src/parser.c
lines 280-407).  c is the character just read, rest the input following it;
buffer, fields, iq (in_quotes), fs (field_started) and fq (field_was_quoted)
are the loop state.  The CRLF branch (lines 282-289) consumes a following
line feed (pushing back any other character) and replaces the character with
a newline, which then flows through the not-in-quotes dispatch of lines
291-328, inlined here in the same order. -/
def parseStep (cfg : csvkit_config_t) (c : Char) (rest buffer : List Char)
    (fields : List (List Char)) (iq fs fq : Bool) : StepOut :=
  if iq = false ∧ c = '\r' then
    let rest2 := if rest.head? = some '\n' then rest.tail else rest
    if ('\n' : Char) = cfg.quote_char ∧ fs = false then
      StepOut.cont rest2 buffer fields true true true
    else if ('\n' : Char) = cfg.delimiter then
      StepOut.cont rest2 [] (fields ++ [finishField cfg fq buffer]) iq false false
    else
      StepOut.halt (finishRow cfg false buffer fields iq fs fq rest2)
  else if iq = false then
    if c = cfg.quote_char ∧ fs = false then
      StepOut.cont rest buffer fields true true true
    else if c = cfg.delimiter then
      StepOut.cont rest [] (fields ++ [finishField cfg fq buffer]) iq false false
    else if c = '\n' then
      StepOut.halt (finishRow cfg false buffer fields iq fs fq rest)
    else
      StepOut.cont rest (buffer ++ [c]) fields iq true fq
  else
    if c = cfg.escape_char then
      match rest with
      | [] =>
        StepOut.halt (finishRow cfg false buffer fields iq fs fq [])
      | next :: rest2 =>
        if next = cfg.quote_char then
          StepOut.cont rest2 (buffer ++ [cfg.quote_char]) fields iq true fq
        else if next = cfg.escape_char then
          StepOut.cont rest2 (buffer ++ [cfg.escape_char]) fields iq true fq
        else if cfg.escape_char = cfg.quote_char then
          if cfg.strict_mode = true ∧ next ≠ cfg.delimiter ∧ next ≠ '\n' ∧ next ≠ '\r' then
            StepOut.halt (RowRes.perr rest2)
          else
            StepOut.cont (next :: rest2) buffer fields false fs fq
        else
          StepOut.cont rest2 (buffer ++ [cfg.escape_char, next]) fields iq true fq
    else if c = cfg.quote_char ∧ cfg.escape_char ≠ cfg.quote_char then
      if cfg.strict_mode = true then
        match rest with
        | [] => StepOut.cont [] buffer fields false fs fq
        | next :: rest2 =>
          if next ≠ cfg.delimiter ∧ next ≠ '\n' ∧ next ≠ '\r' then
            StepOut.halt (RowRes.perr rest2)
          else
            StepOut.cont (next :: rest2) buffer fields false fs fq
      else
        StepOut.cont rest buffer fields false fs fq
    else
      StepOut.cont rest (buffer ++ [c]) fields iq true fq

/-- Character loop of parse_row_internal (src/parser.c lines 280-412), with
fuel making the recursion structural: every iteration consumes at least one
input character, so fuel exceeding the input length never runs out. -/
def parseRowF (cfg : csvkit_config_t) :
    Nat → List Char → List Char → List (List Char) → Bool → Bool → Bool → RowRes
  | 0, input, _, _, _, _, _ => RowRes.perr input
  | Nat.succ _, [], buffer, fields, iq, fs, fq =>
    finishRow cfg true buffer fields iq fs fq []
  | Nat.succ fuel, c :: rest, buffer, fields, iq, fs, fq =>
    match parseStep cfg c rest buffer fields iq fs fq with
    | StepOut.halt res => res
    | StepOut.cont input2 buffer2 fields2 iq2 fs2 fq2 =>
      parseRowF cfg fuel input2 buffer2 fields2 iq2 fs2 fq2

/-- Character loop of parse_row_internal run at the canonical fuel, from an
arbitrary loop state. -/
def parseRowRun (cfg : csvkit_config_t) (input buffer : List Char)
    (fields : List (List Char)) (iq fs fq : Bool) : RowRes :=
  parseRowF cfg (input.length + 1) input buffer fields iq fs fq

/-- Decoding a single row from the start state, mirroring parse_row_internal
of src/parser.c called with a fresh row, empty buffer and cleared flags. -/
def parse_row_internal (cfg : csvkit_config_t) (input : List Char) : RowRes :=
  parseRowRun cfg input [] [] false false false

/-- Row structure, mirroring csvkit_row_t of include/csvkit.h. -/
structure csvkit_row_t where
  fields : List (List Char)
  row_number : Nat
deriving DecidableEq, Repr

/-- Mutable session state of a parser bound to an in-memory source:
remaining input, running row counter, and the strict-mode expected field
count (0 while not yet established), mirroring struct csvkit_parser of
src/parser.c. -/
structure ParserState where
  input : List Char
  row_number : Nat
  expected_field_count : Nat
deriving DecidableEq, Repr

/-- Result of csvkit_read_row: a row plus the successor parser state, or the
end-of-input signal, or a parse error (each carrying the parser state left
behind). -/
inductive ReadRes where
  | ok (row : csvkit_row_t) (st : ParserState)
  | eof (st : ParserState)
  | perr (st : ParserState)
deriving DecidableEq, Repr

/-- Emptiness test on a field list, mirroring the loop of
csvkit_row_is_empty of src/parser.c (a row with no fields is empty; a field
with a first character is data). -/
def rowFieldsEmpty : List (List Char) → Bool
  | [] => true
  | f :: rest => if f ≠ [] then false else rowFieldsEmpty rest

/-- Emptiness test on a nullable row, mirroring csvkit_row_is_empty of
src/parser.c. -/
def csvkit_row_is_empty (row : Option csvkit_row_t) : Bool :=
  match row with
  | none => true
  | some r => rowFieldsEmpty r.fields

/-- Row reading loop of csvkit_read_row (src/parser.c lines 443-529), with
fuel covering the skip-empty-rows retry loop (the read_next_row goto).
On success the row counter is incremented and stamped on the row; an empty
row is discarded and decoding retried when skip_empty_rows is set; in strict
mode the first row establishes the expected field count and a later mismatch
discards the row and fails with a parse error.  Note that on a strict-mode
mismatch the row counter keeps its increment, and on a parse error from the
row decoder it was never incremented, exactly as in the C code. -/
def readRowF (cfg : csvkit_config_t) : Nat → ParserState → ReadRes
  | 0, st => ReadRes.perr st
  | Nat.succ fuel, st =>
    match parse_row_internal cfg st.input with
    | RowRes.eofSig rest => ReadRes.eof ⟨rest, st.row_number, st.expected_field_count⟩
    | RowRes.perr rest => ReadRes.perr ⟨rest, st.row_number, st.expected_field_count⟩
    | RowRes.ok fields rest =>
      if cfg.skip_empty_rows = true ∧ rowFieldsEmpty fields = true then
        readRowF cfg fuel ⟨rest, st.row_number + 1, st.expected_field_count⟩
      else if cfg.strict_mode = true then
        if st.expected_field_count = 0 then
          ReadRes.ok ⟨fields, st.row_number + 1⟩ ⟨rest, st.row_number + 1, fields.length⟩
        else if fields.length ≠ st.expected_field_count then
          ReadRes.perr ⟨rest, st.row_number + 1, st.expected_field_count⟩
        else
          ReadRes.ok ⟨fields, st.row_number + 1⟩ ⟨rest, st.row_number + 1, st.expected_field_count⟩
      else
        ReadRes.ok ⟨fields, st.row_number + 1⟩ ⟨rest, st.row_number + 1, st.expected_field_count⟩

/-- One call of csvkit_read_row of src/parser.c, at the canonical fuel. -/
def csvkit_read_row (cfg : csvkit_config_t) (st : ParserState) : ReadRes :=
  readRowF cfg (st.input.length + 1) st

/-- Repeated csvkit_read_row calls collecting every returned row together
with the terminating result (end-of-input or error), with fuel covering the
number of calls. -/
def readAllF (cfg : csvkit_config_t) : Nat → ParserState → List csvkit_row_t × ReadRes
  | 0, st => ([], ReadRes.perr st)
  | Nat.succ fuel, st =>
    match csvkit_read_row cfg st with
    | ReadRes.ok row st2 =>
      let res := readAllF cfg fuel st2
      (row :: res.1, res.2)
    | other => ([], other)

/-- Reading every row of a source opened with csvkit_open_string (row
counter and strict-mode tracking start at zero). -/
def readAll (cfg : csvkit_config_t) (input : List Char) : List csvkit_row_t × ReadRes :=
  readAllF cfg (input.length + 1) ⟨input, 0, 0⟩

/-- Field accessor, mirroring csvkit_row_get_field of src/parser.c: NULL for
a NULL row or an index at or past field_count, otherwise the field at the
index. -/
def csvkit_row_get_field (row : Option csvkit_row_t) (index : Nat) : Option (List Char) :=
  match row with
  | none => none
  | some r =>
    if h : r.fields.length ≤ index then none
    else some (r.fields.get ⟨index, Nat.lt_of_not_le h⟩)

/-- Field count accessor, mirroring csvkit_row_field_count of src/parser.c. -/
def csvkit_row_field_count (row : Option csvkit_row_t) : Nat :=
  match row with
  | none => 0
  | some r => r.fields.length

/-- Quoting test of the writer, mirroring needs_quoting of src/writer.c: a
field needs quoting when it contains the delimiter, the quote character, a
newline or a carriage return. -/
def needs_quoting (field : List Char) (delimiter quote_char : Char) : Bool :=
  match field with
  | [] => false
  | c :: rest =>
    if c = delimiter ∨ c = quote_char ∨ c = '\n' ∨ c = '\r' then true
    else needs_quoting rest delimiter quote_char

/-- Body of a quoted field as emitted by csvkit_writer_write_row
(src/writer.c lines 139-153): every quote character is preceded by the
escape character, all other characters are copied. -/
def quoteEncode (cfg : csvkit_config_t) : List Char → List Char
  | [] => []
  | c :: rest =>
    if c = cfg.quote_char then cfg.escape_char :: cfg.quote_char :: quoteEncode cfg rest
    else c :: quoteEncode cfg rest

/-- Encoding of a single field by csvkit_writer_write_row: wrapped in quote
characters with inner quotes escaped when quoting is needed, raw otherwise. -/
def writeField (cfg : csvkit_config_t) (field : List Char) : List Char :=
  if needs_quoting field cfg.delimiter cfg.quote_char = true then
    cfg.quote_char :: (quoteEncode cfg field ++ [cfg.quote_char])
  else field

/-- Field loop of csvkit_writer_write_row (src/writer.c lines 122-166): a
delimiter before every field except the first, a NULL field treated as the
empty string. -/
def writeRowGo (cfg : csvkit_config_t) : List (Option (List Char)) → Bool → List Char
  | [], _ => []
  | f :: rest, isFirst =>
    (if isFirst then [] else [cfg.delimiter]) ++ writeField cfg (f.getD [])
      ++ writeRowGo cfg rest false

/-- Output of one csvkit_writer_write_row call of src/writer.c: the encoded
fields followed by a single newline.  I/O failures of the sink are not
modelled (the sink always accepts). -/
def csvkit_writer_write_row (cfg : csvkit_config_t)
    (fields : List (Option (List Char))) : List Char :=
  writeRowGo cfg fields true ++ ['\n']

/-- Output of writing a sequence of rows of (non-null) fields with
csvkit_writer_write_row. -/
def writeRows (cfg : csvkit_config_t) : List (List (List Char)) → List Char
  | [] => []
  | r :: rest => csvkit_writer_write_row cfg (r.map some) ++ writeRows cfg rest

/-- Printable ASCII character (space through tilde), the character class
named by the round-trip property of the specification. -/
def printableChar (c : Char) : Bool :=
  decide (0x20 ≤ c.toNat) && decide (c.toNat ≤ 0x7e)

/-- One loop iteration never lengthens the remaining input. -/
theorem parseStep_cont_length {cfg : csvkit_config_t} {c : Char}
    {rest buffer : List Char} {fields : List (List Char)} {iq fs fq : Bool}
    {input2 buffer2 : List Char} {fields2 : List (List Char)} {iq2 fs2 fq2 : Bool}
    (h : parseStep cfg c rest buffer fields iq fs fq
          = StepOut.cont input2 buffer2 fields2 iq2 fs2 fq2) :
    input2.length ≤ rest.length := by
  unfold parseStep at h
  repeat' split at h
  all_goals first
    | exact StepOut.noConfusion h
    | (injection h with h1 h2 h3 h4 h5 h6
       rw [← h1]
       try simp [List.length_tail]
       try omega)

/-- Adding one unit of fuel beyond the input length does not change the
result of the character loop. -/
theorem parseRowF_fuel_succ (cfg : csvkit_config_t) :
    ∀ (fuel : Nat) (input buffer : List Char) (fields : List (List Char)) (iq fs fq : Bool),
      input.length < fuel →
      parseRowF cfg (fuel + 1) input buffer fields iq fs fq
        = parseRowF cfg fuel input buffer fields iq fs fq := by
  intro fuel
  induction fuel with
  | zero => intro input _ _ _ _ _ h; exact absurd h (Nat.not_lt_zero _)
  | succ k ih =>
    intro input buffer fields iq fs fq h
    cases input with
    | nil => rfl
    | cons c rest =>
      have hr : rest.length < k := by simpa using h
      simp only [parseRowF]
      cases hstep : parseStep cfg c rest buffer fields iq fs fq with
      | halt res => rfl
      | cont input2 buffer2 fields2 iq2 fs2 fq2 =>
        exact ih input2 buffer2 fields2 iq2 fs2 fq2
          (Nat.lt_of_le_of_lt (parseStep_cont_length hstep) hr)

/-- Any two sufficient fuels give the same result for the character loop. -/
theorem parseRowF_fuel_stable (cfg : csvkit_config_t) :
    ∀ (fuel fuel' : Nat) (input buffer : List Char) (fields : List (List Char))
      (iq fs fq : Bool),
      input.length < fuel → input.length < fuel' →
      parseRowF cfg fuel input buffer fields iq fs fq
        = parseRowF cfg fuel' input buffer fields iq fs fq := by
  have aux : ∀ (d fuel : Nat) (input buffer : List Char) (fields : List (List Char))
      (iq fs fq : Bool), input.length < fuel →
      parseRowF cfg (fuel + d) input buffer fields iq fs fq
        = parseRowF cfg fuel input buffer fields iq fs fq := by
    intro d
    induction d with
    | zero => intro fuel input buffer fields iq fs fq _; rfl
    | succ e ih =>
      intro fuel input buffer fields iq fs fq h
      have h1 : input.length < fuel + e := by omega
      have := parseRowF_fuel_succ cfg (fuel + e) input buffer fields iq fs fq h1
      calc parseRowF cfg (fuel + (e + 1)) input buffer fields iq fs fq
          = parseRowF cfg (fuel + e + 1) input buffer fields iq fs fq := by
            rw [Nat.add_assoc]
        _ = parseRowF cfg (fuel + e) input buffer fields iq fs fq := this
        _ = parseRowF cfg fuel input buffer fields iq fs fq :=
            ih fuel input buffer fields iq fs fq h
  intro fuel fuel' input buffer fields iq fs fq h h'
  have e1 := aux (fuel - (input.length + 1)) (input.length + 1) input buffer fields iq fs fq
    (Nat.lt_succ_self _)
  have e2 := aux (fuel' - (input.length + 1)) (input.length + 1) input buffer fields iq fs fq
    (Nat.lt_succ_self _)
  have hf : input.length + 1 + (fuel - (input.length + 1)) = fuel := by omega
  have hf' : input.length + 1 + (fuel' - (input.length + 1)) = fuel' := by omega
  rw [hf] at e1
  rw [hf'] at e2
  rw [e1, e2]

/-- The character loop on exhausted input runs the end-of-loop code. -/
theorem parseRowRun_nil (cfg : csvkit_config_t) (buffer : List Char)
    (fields : List (List Char)) (iq fs fq : Bool) :
    parseRowRun cfg [] buffer fields iq fs fq = finishRow cfg true buffer fields iq fs fq [] :=
  rfl

/-- Unfolding one iteration of the character loop at the canonical fuel. -/
theorem parseRowRun_cons (cfg : csvkit_config_t) (c : Char) (rest buffer : List Char)
    (fields : List (List Char)) (iq fs fq : Bool) :
    parseRowRun cfg (c :: rest) buffer fields iq fs fq =
      match parseStep cfg c rest buffer fields iq fs fq with
      | StepOut.halt res => res
      | StepOut.cont input2 buffer2 fields2 iq2 fs2 fq2 =>
        parseRowRun cfg input2 buffer2 fields2 iq2 fs2 fq2 := by
  unfold parseRowRun
  simp only [List.length_cons]
  simp only [parseRowF]
  cases hstep : parseStep cfg c rest buffer fields iq fs fq with
  | halt res => rfl
  | cont input2 buffer2 fields2 iq2 fs2 fq2 =>
    exact parseRowF_fuel_stable cfg (rest.length + 1) (input2.length + 1) input2 buffer2
      fields2 iq2 fs2 fq2
      (Nat.lt_of_le_of_lt (parseStep_cont_length hstep) (Nat.lt_succ_self _))
      (Nat.lt_succ_self _)


example : (('\n' : Char) = '\r') = False := by simp

theorem step_quote_open (cfg : csvkit_config_t) (rest buffer : List Char)
    (fields : List (List Char)) (fq : Bool) (hq : cfg.quote_char ≠ '\r') :
    parseRowRun cfg (cfg.quote_char :: rest) buffer fields false false fq
      = parseRowRun cfg rest buffer fields true true true := by
  rw [parseRowRun_cons]
  simp [parseStep, hq]

theorem step_delimiter (cfg : csvkit_config_t) (rest buffer : List Char)
    (fields : List (List Char)) (fs fq : Bool) (hd : cfg.delimiter ≠ '\r')
    (hdq : cfg.delimiter ≠ cfg.quote_char) :
    parseRowRun cfg (cfg.delimiter :: rest) buffer fields false fs fq
      = parseRowRun cfg rest [] (fields ++ [finishField cfg fq buffer]) false false false := by
  rw [parseRowRun_cons]
  simp [parseStep, hd, hdq]

theorem step_newline (cfg : csvkit_config_t) (rest buffer : List Char)
    (fields : List (List Char)) (fs fq : Bool) (hq : cfg.quote_char ≠ '\n')
    (hd : cfg.delimiter ≠ '\n') :
    parseRowRun cfg ('\n' :: rest) buffer fields false fs fq
      = RowRes.ok (fields ++ [finishField cfg fq buffer]) rest := by
  rw [parseRowRun_cons]
  simp [parseStep, finishRow, hq.symm, hd.symm]

theorem step_append_unquoted (cfg : csvkit_config_t) (c : Char) (rest buffer : List Char)
    (fields : List (List Char)) (fs fq : Bool) (hcr : c ≠ '\r') (hq : c ≠ cfg.quote_char)
    (hd : c ≠ cfg.delimiter) (hn : c ≠ '\n') :
    parseRowRun cfg (c :: rest) buffer fields false fs fq
      = parseRowRun cfg rest (buffer ++ [c]) fields false true fq := by
  rw [parseRowRun_cons]
  simp [parseStep, hcr, hq, hd, hn]

theorem step_escape_quote (cfg : csvkit_config_t) (rest buffer : List Char)
    (fields : List (List Char)) (fs fq : Bool) :
    parseRowRun cfg (cfg.escape_char :: cfg.quote_char :: rest) buffer fields true fs fq
      = parseRowRun cfg rest (buffer ++ [cfg.quote_char]) fields true true fq := by
  rw [parseRowRun_cons]
  simp [parseStep]

theorem step_escape_other (cfg : csvkit_config_t) (next : Char) (rest buffer : List Char)
    (fields : List (List Char)) (fs fq : Bool) (h1 : next ≠ cfg.quote_char)
    (h2 : next ≠ cfg.escape_char) (h3 : cfg.escape_char ≠ cfg.quote_char) :
    parseRowRun cfg (cfg.escape_char :: next :: rest) buffer fields true fs fq
      = parseRowRun cfg rest (buffer ++ [cfg.escape_char, next]) fields true true fq := by
  rw [parseRowRun_cons]
  simp [parseStep, h1, h2, h3]

theorem step_escape_eof (cfg : csvkit_config_t) (buffer : List Char)
    (fields : List (List Char)) (fs fq : Bool) :
    parseRowRun cfg [cfg.escape_char] buffer fields true fs fq = RowRes.perr [] := by
  rw [parseRowRun_cons]
  simp [parseStep, finishRow]

theorem step_quote_close (cfg : csvkit_config_t) (rest buffer : List Char)
    (fields : List (List Char)) (fs fq : Bool) (h3 : cfg.escape_char ≠ cfg.quote_char)
    (hstrict : cfg.strict_mode = false) :
    parseRowRun cfg (cfg.quote_char :: rest) buffer fields true fs fq
      = parseRowRun cfg rest buffer fields false fs fq := by
  rw [parseRowRun_cons]
  simp [parseStep, h3, h3.symm, hstrict]

theorem step_append_quoted (cfg : csvkit_config_t) (c : Char) (rest buffer : List Char)
    (fields : List (List Char)) (fs fq : Bool) (h1 : c ≠ cfg.escape_char)
    (h2 : c ≠ cfg.quote_char) :
    parseRowRun cfg (c :: rest) buffer fields true fs fq
      = parseRowRun cfg rest (buffer ++ [c]) fields true true fq := by
  rw [parseRowRun_cons]
  simp [parseStep, h1, h2]



/-- Characterization of parser-side configuration validation. -/
theorem parser_validate_config_iff (c : csvkit_config_t) :
    parser_validate_config c = true ↔
      (c.delimiter ≠ '\n' ∧ c.delimiter ≠ '\r' ∧ c.delimiter ≠ c.quote_char ∧
       c.quote_char ≠ '\n' ∧ c.quote_char ≠ '\r' ∧
       c.escape_char ≠ '\n' ∧ c.escape_char ≠ '\r') := by
  unfold parser_validate_config
  repeat' split
  all_goals simp_all
  all_goals tauto

/-- Characterization of writer-side configuration validation: the writer
accepts exactly the configurations the parser accepts. -/
theorem writer_validate_config_iff (c : csvkit_config_t) :
    writer_validate_config c = true ↔ parser_validate_config c = true := by
  unfold writer_validate_config parser_validate_config
  repeat' split
  all_goals simp_all

/-- A read that decodes no row reports end-of-input. -/
theorem read_row_of_eofSig (cfg : csvkit_config_t) (st : ParserState) (rest : List Char)
    (h : parse_row_internal cfg st.input = RowRes.eofSig rest) :
    csvkit_read_row cfg st = ReadRes.eof ⟨rest, st.row_number, st.expected_field_count⟩ := by
  unfold csvkit_read_row readRowF
  rw [h]

/-- A failed row decode reports the parse error without touching the counter. -/
theorem read_row_of_perr (cfg : csvkit_config_t) (st : ParserState) (rest : List Char)
    (h : parse_row_internal cfg st.input = RowRes.perr rest) :
    csvkit_read_row cfg st = ReadRes.perr ⟨rest, st.row_number, st.expected_field_count⟩ := by
  unfold csvkit_read_row readRowF
  rw [h]

/-- A decoded row that is not filtered out is returned with the incremented
counter when strict mode is off. -/
theorem read_row_of_ok (cfg : csvkit_config_t) (st : ParserState)
    (fields : List (List Char)) (rest : List Char)
    (h : parse_row_internal cfg st.input = RowRes.ok fields rest)
    (hskip : ¬(cfg.skip_empty_rows = true ∧ rowFieldsEmpty fields = true))
    (hstrict : cfg.strict_mode = false) :
    csvkit_read_row cfg st = ReadRes.ok ⟨fields, st.row_number + 1⟩
      ⟨rest, st.row_number + 1, st.expected_field_count⟩ := by
  unfold csvkit_read_row readRowF
  rw [h]
  simp [hskip, hstrict]

/-- In strict mode the first decoded surviving row establishes the expected
field count. -/
theorem read_row_strict_first (cfg : csvkit_config_t) (st : ParserState)
    (fields : List (List Char)) (rest : List Char)
    (h : parse_row_internal cfg st.input = RowRes.ok fields rest)
    (hskip : ¬(cfg.skip_empty_rows = true ∧ rowFieldsEmpty fields = true))
    (hstrict : cfg.strict_mode = true) (hexp : st.expected_field_count = 0) :
    csvkit_read_row cfg st = ReadRes.ok ⟨fields, st.row_number + 1⟩
      ⟨rest, st.row_number + 1, fields.length⟩ := by
  unfold csvkit_read_row readRowF
  rw [h]
  simp [hskip, hstrict, hexp]

/-- In strict mode a surviving row whose field count mismatches the
established count is discarded and reported as a parse error. -/
theorem read_row_strict_mismatch (cfg : csvkit_config_t) (st : ParserState)
    (fields : List (List Char)) (rest : List Char)
    (h : parse_row_internal cfg st.input = RowRes.ok fields rest)
    (hskip : ¬(cfg.skip_empty_rows = true ∧ rowFieldsEmpty fields = true))
    (hstrict : cfg.strict_mode = true) (hexp : st.expected_field_count ≠ 0)
    (hmis : fields.length ≠ st.expected_field_count) :
    csvkit_read_row cfg st = ReadRes.perr
      ⟨rest, st.row_number + 1, st.expected_field_count⟩ := by
  unfold csvkit_read_row readRowF
  rw [h]
  simp [hskip, hstrict, hexp, hmis]

/-- In strict mode a surviving row whose field count matches is returned. -/
theorem read_row_strict_match (cfg : csvkit_config_t) (st : ParserState)
    (fields : List (List Char)) (rest : List Char)
    (h : parse_row_internal cfg st.input = RowRes.ok fields rest)
    (hskip : ¬(cfg.skip_empty_rows = true ∧ rowFieldsEmpty fields = true))
    (hstrict : cfg.strict_mode = true) (hexp : st.expected_field_count ≠ 0)
    (hm : fields.length = st.expected_field_count) :
    csvkit_read_row cfg st = ReadRes.ok ⟨fields, st.row_number + 1⟩
      ⟨rest, st.row_number + 1, st.expected_field_count⟩ := by
  unfold csvkit_read_row readRowF
  rw [h]
  simp [hskip, hstrict, hexp, hm]



/-- The end-of-loop code never signals end-of-input unless the loop ended at
end of the source. -/
theorem finishRow_false_ne_eofSig (cfg : csvkit_config_t) (buffer : List Char)
    (fields : List (List Char)) (iq fs fq : Bool) (rest r : List Char) :
    finishRow cfg false buffer fields iq fs fq rest ≠ RowRes.eofSig r := by
  unfold finishRow
  repeat' split
  all_goals simp_all

/-- A successfully finished row carries at least one field. -/
theorem finishRow_ok_ne_nil (cfg : csvkit_config_t) (atEof : Bool) (buffer : List Char)
    (fields : List (List Char)) (iq fs fq : Bool) (rest : List Char)
    (fl : List (List Char)) (r : List Char)
    (h : finishRow cfg atEof buffer fields iq fs fq rest = RowRes.ok fl r) : fl ≠ [] := by
  unfold finishRow at h
  repeat' split at h
  all_goals try simp_all
  all_goals (obtain ⟨h1, h2⟩ := h; rw [← h1]; simp)

/-- No loop iteration halts with the end-of-input signal. -/
theorem parseStep_halt_ne_eofSig (cfg : csvkit_config_t) (c : Char)
    (rest buffer : List Char) (fields : List (List Char)) (iq fs fq : Bool)
    (r : List Char) :
    parseStep cfg c rest buffer fields iq fs fq ≠ StepOut.halt (RowRes.eofSig r) := by
  unfold parseStep
  repeat' split
  all_goals intro h
  all_goals first
    | exact StepOut.noConfusion h
    | (injection h with h1
       first
         | exact finishRow_false_ne_eofSig cfg _ _ _ _ _ _ _ h1
         | exact RowRes.noConfusion h1)

/-- A loop iteration that halts with a decoded row produced at least one
field. -/
theorem parseStep_halt_ok_ne_nil (cfg : csvkit_config_t) (c : Char)
    (rest buffer : List Char) (fields : List (List Char)) (iq fs fq : Bool)
    (fl : List (List Char)) (r : List Char)
    (h : parseStep cfg c rest buffer fields iq fs fq = StepOut.halt (RowRes.ok fl r)) :
    fl ≠ [] := by
  unfold parseStep at h
  repeat' split at h
  all_goals first
    | exact StepOut.noConfusion h
    | (injection h with h1
       first
         | exact finishRow_ok_ne_nil cfg _ _ _ _ _ _ _ _ _ h1
         | exact RowRes.noConfusion h1)

/-- A loop iteration keeps the row non-pristine: once the field started, a
field was appended, or the buffer is non-empty, this stays so. -/
theorem parseStep_cont_inv (cfg : csvkit_config_t) (c : Char)
    (rest buffer : List Char) (fields : List (List Char)) (iq fs fq : Bool)
    (input2 buffer2 : List Char) (fields2 : List (List Char)) (iq2 fs2 fq2 : Bool)
    (h : parseStep cfg c rest buffer fields iq fs fq
          = StepOut.cont input2 buffer2 fields2 iq2 fs2 fq2)
    (hs : fs = true ∨ fields ≠ [] ∨ buffer ≠ []) :
    fs2 = true ∨ fields2 ≠ [] ∨ buffer2 ≠ [] := by
  unfold parseStep at h
  repeat' split at h
  all_goals first
    | exact StepOut.noConfusion h
    | (injection h with h1 h2 h3 h4 h5 h6
       subst_vars
       simp_all [List.append_eq_nil])

/-- Starting a fresh field from the pristine start state, any continuing
iteration leaves a non-pristine state. -/
theorem parseStep_init_inv (cfg : csvkit_config_t) (c : Char) (rest : List Char)
    (fq : Bool) (input2 buffer2 : List Char) (fields2 : List (List Char))
    (iq2 fs2 fq2 : Bool)
    (h : parseStep cfg c rest [] [] false false fq
          = StepOut.cont input2 buffer2 fields2 iq2 fs2 fq2) :
    fs2 = true ∨ fields2 ≠ [] ∨ buffer2 ≠ [] := by
  unfold parseStep at h
  repeat' split at h
  all_goals first
    | exact StepOut.noConfusion h
    | (injection h with h1 h2 h3 h4 h5 h6
       subst_vars
       simp_all [List.append_eq_nil])

/-- A decoded row always carries at least one field. -/
theorem parseRowF_ok_ne_nil (cfg : csvkit_config_t) :
    ∀ (fuel : Nat) (input buffer : List Char) (fields : List (List Char))
      (iq fs fq : Bool) (fl : List (List Char)) (rest : List Char),
      parseRowF cfg fuel input buffer fields iq fs fq = RowRes.ok fl rest → fl ≠ [] := by
  intro fuel
  induction fuel with
  | zero => intro input buffer fields iq fs fq fl rest h; exact RowRes.noConfusion h
  | succ k ih =>
    intro input buffer fields iq fs fq fl rest h
    cases input with
    | nil => exact finishRow_ok_ne_nil cfg _ _ _ _ _ _ _ _ _ h
    | cons c rest1 =>
      rw [parseRowF] at h
      cases hstep : parseStep cfg c rest1 buffer fields iq fs fq with
      | halt res =>
        rw [hstep] at h
        simp only at h
        subst h
        exact parseStep_halt_ok_ne_nil cfg _ _ _ _ _ _ _ _ _ hstep
      | cont input2 buffer2 fields2 iq2 fs2 fq2 =>
        rw [hstep] at h
        exact ih input2 buffer2 fields2 iq2 fs2 fq2 fl rest h

/-- From a non-pristine state the character loop never signals end-of-input. -/
theorem parseRowF_started_ne_eofSig (cfg : csvkit_config_t) :
    ∀ (fuel : Nat) (input buffer : List Char) (fields : List (List Char))
      (iq fs fq : Bool) (r : List Char),
      (fs = true ∨ fields ≠ [] ∨ buffer ≠ []) →
      parseRowF cfg fuel input buffer fields iq fs fq ≠ RowRes.eofSig r := by
  intro fuel
  induction fuel with
  | zero => intro input buffer fields iq fs fq r _ h; exact RowRes.noConfusion h
  | succ k ih =>
    intro input buffer fields iq fs fq r hs h
    cases input with
    | nil =>
      unfold parseRowF finishRow at h
      repeat' split at h
      all_goals simp_all
    | cons c rest1 =>
      rw [parseRowF] at h
      cases hstep : parseStep cfg c rest1 buffer fields iq fs fq with
      | halt res =>
        rw [hstep] at h
        simp only at h
        subst h
        exact parseStep_halt_ne_eofSig cfg _ _ _ _ _ _ _ _ hstep
      | cont input2 buffer2 fields2 iq2 fs2 fq2 =>
        rw [hstep] at h
        exact ih input2 buffer2 fields2 iq2 fs2 fq2 r
          (parseStep_cont_inv cfg _ _ _ _ _ _ _ _ _ _ _ _ _ hstep hs) h

/-- The row decoder signals end-of-input exactly on an exhausted source. -/
theorem parse_row_internal_eofSig_iff (cfg : csvkit_config_t) (input : List Char)
    (r : List Char) :
    parse_row_internal cfg input = RowRes.eofSig r ↔ (input = [] ∧ r = []) := by
  constructor
  · intro h
    cases input with
    | nil =>
      refine ⟨rfl, ?_⟩
      rw [parse_row_internal, parseRowRun_nil] at h
      simp [finishRow] at h
      exact h
    | cons c rest =>
      exfalso
      rw [parse_row_internal, parseRowRun_cons] at h
      revert h
      cases hstep : parseStep cfg c rest [] [] false false false with
      | halt res =>
        intro h
        simp only at h
        subst h
        exact parseStep_halt_ne_eofSig cfg _ _ _ _ _ _ _ _ hstep
      | cont input2 buffer2 fields2 iq2 fs2 fq2 =>
        intro h
        exact parseRowF_started_ne_eofSig cfg _ _ _ _ _ _ _ _
          (parseStep_init_inv cfg _ _ _ _ _ _ _ _ _ hstep) h
  · rintro ⟨h1, h2⟩
    subst h1 h2
    rfl

/-- Any successfully returned row carries at least one field. -/
theorem readRowF_ok_ne_nil (cfg : csvkit_config_t) :
    ∀ (fuel : Nat) (st : ParserState) (row : csvkit_row_t) (st2 : ParserState),
      readRowF cfg fuel st = ReadRes.ok row st2 → row.fields ≠ [] := by
  intro fuel
  induction fuel with
  | zero => intro st row st2 h; exact ReadRes.noConfusion h
  | succ k ih =>
    intro st row st2 h
    rw [readRowF] at h
    revert h
    cases hp : parse_row_internal cfg st.input with
    | eofSig rest => intro h; exact ReadRes.noConfusion h
    | perr rest => intro h; exact ReadRes.noConfusion h
    | ok fields rest =>
      intro h
      simp only at h
      split at h
      · exact ih _ _ _ h
      · have hne : fields ≠ [] := parseRowF_ok_ne_nil cfg _ _ _ _ _ _ _ _ _ hp
        split at h
        · split at h
          · injection h with h1 h2; subst h1; simpa using hne
          · split at h
            · exact ReadRes.noConfusion h
            · injection h with h1 h2; subst h1; simpa using hne
        · injection h with h1 h2; subst h1; simpa using hne



/-- Claim C9: a configuration with delimiter equal to quote_char, or with
delimiter, quote_char or escape_char among newline or carriage return, is
rejected by both csvkit_parser_new_with_config and
csvkit_writer_new_with_config, which return null; escape_char equal to
quote_char with the other invariants satisfied is accepted by both. -/
theorem claim_c9 :
    (∀ c : csvkit_config_t, c.delimiter = c.quote_char →
        csvkit_parser_new_with_config c = none ∧ csvkit_writer_new_with_config c = none) ∧
    (∀ c : csvkit_config_t,
        (c.delimiter = '\n' ∨ c.delimiter = '\r' ∨ c.quote_char = '\n' ∨ c.quote_char = '\r' ∨
         c.escape_char = '\n' ∨ c.escape_char = '\r') →
        csvkit_parser_new_with_config c = none ∧ csvkit_writer_new_with_config c = none) ∧
    (∀ c : csvkit_config_t, c.escape_char = c.quote_char →
        c.delimiter ≠ c.quote_char → c.delimiter ≠ '\n' → c.delimiter ≠ '\r' →
        c.quote_char ≠ '\n' → c.quote_char ≠ '\r' →
        csvkit_parser_new_with_config c = some c ∧ csvkit_writer_new_with_config c = some c) := by
  refine ⟨?_, ?_, ?_⟩
  · intro c h
    have h1 : parser_validate_config c = false := by
      rw [← Bool.not_eq_true, parser_validate_config_iff]
      tauto
    have h2 : writer_validate_config c = false := by
      rw [← Bool.not_eq_true, writer_validate_config_iff, parser_validate_config_iff]
      tauto
    simp [csvkit_parser_new_with_config, csvkit_writer_new_with_config, h1, h2]
  · intro c h
    have h1 : parser_validate_config c = false := by
      rw [← Bool.not_eq_true, parser_validate_config_iff]
      tauto
    have h2 : writer_validate_config c = false := by
      rw [← Bool.not_eq_true, writer_validate_config_iff, parser_validate_config_iff]
      tauto
    simp [csvkit_parser_new_with_config, csvkit_writer_new_with_config, h1, h2]
  · intro c h1 h2 h3 h4 h5 h6
    have hp : parser_validate_config c = true := by
      rw [parser_validate_config_iff]
      refine ⟨h3, h4, h2, h5, h6, ?_, ?_⟩ <;> rw [h1] <;> assumption
    have hw : writer_validate_config c = true := by
      rw [writer_validate_config_iff]
      exact hp
    simp [csvkit_parser_new_with_config, csvkit_writer_new_with_config, hp, hw]

/-- Witness for claim C9 at concrete configurations. -/
theorem claim_c9_witness :
    (csvkit_parser_new_with_config ⟨',', ',', '"', false, false, false⟩ = none ∧
     csvkit_writer_new_with_config ⟨',', ',', '"', false, false, false⟩ = none) ∧
    (csvkit_parser_new_with_config ⟨'\n', '"', '"', false, false, false⟩ = none ∧
     csvkit_writer_new_with_config ⟨'\n', '"', '"', false, false, false⟩ = none) ∧
    (csvkit_parser_new_with_config csvkit_config_default = some csvkit_config_default ∧
     csvkit_writer_new_with_config csvkit_config_default = some csvkit_config_default) :=
  ⟨claim_c9.1 _ rfl, claim_c9.2.1 _ (Or.inl rfl),
   claim_c9.2.2 _ rfl (by decide) (by decide) (by decide) (by decide) (by decide)⟩

/-- Claim C10: csvkit_row_get_field is total: it returns NULL on a null row
or an index at or beyond field_count, and the indexed field otherwise. -/
theorem claim_c10 :
    (∀ index : Nat, csvkit_row_get_field none index = none) ∧
    (∀ (r : csvkit_row_t) (index : Nat), r.fields.length ≤ index →
        csvkit_row_get_field (some r) index = none) ∧
    (∀ (r : csvkit_row_t) (index : Nat) (h : index < r.fields.length),
        csvkit_row_get_field (some r) index = some (r.fields.get ⟨index, h⟩)) := by
  refine ⟨fun _ => rfl, ?_, ?_⟩
  · intro r index h
    simp [csvkit_row_get_field, h]
  · intro r index h
    simp [csvkit_row_get_field, Nat.not_le_of_lt h]

/-- Witness for claim C10 at a concrete row. -/
theorem claim_c10_witness :
    csvkit_row_get_field none 0 = none ∧
    csvkit_row_get_field (some ⟨[['a'], ['b']], 1⟩) 5 = none ∧
    csvkit_row_get_field (some ⟨[['a'], ['b']], 1⟩) 1 = some ['b'] :=
  ⟨claim_c10.1 0, claim_c10.2.1 ⟨[['a'], ['b']], 1⟩ 5 (by decide),
   by rw [claim_c10.2.2 ⟨[['a'], ['b']], 1⟩ 1 (by decide)]; decide⟩

/-- Claim C8: the end-of-input signal arises exactly on an exhausted source
with no field appended, an empty buffer and the field never started; an
empty source gives zero rows and an immediate end-of-input; every row
returned with CSVKIT_OK has at least one field. -/
theorem claim_c8 :
    (∀ (cfg : csvkit_config_t) (input r : List Char),
        parse_row_internal cfg input = RowRes.eofSig r ↔ (input = [] ∧ r = [])) ∧
    (∀ (cfg : csvkit_config_t) (input buffer : List Char) (fields : List (List Char))
        (iq fs fq : Bool) (r : List Char),
        (fs = true ∨ fields ≠ [] ∨ buffer ≠ []) →
        parseRowRun cfg input buffer fields iq fs fq ≠ RowRes.eofSig r) ∧
    (∀ (cfg : csvkit_config_t) (n e : Nat),
        csvkit_read_row cfg ⟨[], n, e⟩ = ReadRes.eof ⟨[], n, e⟩) ∧
    (∀ cfg : csvkit_config_t, readAll cfg [] = ([], ReadRes.eof ⟨[], 0, 0⟩)) ∧
    (∀ (cfg : csvkit_config_t) (st : ParserState) (row : csvkit_row_t) (st2 : ParserState),
        csvkit_read_row cfg st = ReadRes.ok row st2 → row.fields ≠ []) := by
  refine ⟨parse_row_internal_eofSig_iff, ?_, ?_, ?_, ?_⟩
  · intro cfg input buffer fields iq fs fq r hs
    exact parseRowF_started_ne_eofSig cfg _ _ _ _ _ _ _ _ hs
  · intro cfg n e
    exact read_row_of_eofSig cfg ⟨[], n, e⟩ [] rfl
  · intro cfg
    rfl
  · intro cfg st row st2 h
    exact readRowF_ok_ne_nil cfg _ _ _ _ h

/-- Witness for claim C8 at concrete inputs. -/
theorem claim_c8_witness :
    (parse_row_internal csvkit_config_default [] = RowRes.eofSig [] ↔
      (([] : List Char) = [] ∧ ([] : List Char) = [])) ∧
    parseRowRun csvkit_config_default ['x'] [] [] false true false ≠ RowRes.eofSig [] ∧
    csvkit_read_row csvkit_config_default ⟨[], 0, 0⟩ = ReadRes.eof ⟨[], 0, 0⟩ ∧
    (⟨[['a']], 1⟩ : csvkit_row_t).fields ≠ [] :=
  ⟨claim_c8.1 csvkit_config_default [] [],
   claim_c8.2.1 csvkit_config_default ['x'] [] [] false true false [] (Or.inl rfl),
   claim_c8.2.2.1 csvkit_config_default 0 0,
   claim_c8.2.2.2.2 csvkit_config_default ⟨['a'], 0, 0⟩ ⟨[['a']], 1⟩ ⟨[], 1, 0⟩ (by decide)⟩

/-- Counterexample to claim C2: on the claimed input, which has a space
between the delimiter and the quote, the second field is not decoded as a
quoted field; the quote characters stay in the field. -/
theorem claim_c2_counterexample :
    csvkit_read_row { csvkit_config_default with trim_whitespace := true }
        ⟨[' ', ' ', 'x', ' ', ' ', ',', ' ', '"', ' ', ' ', 'y', ' ', ' ', '"'], 0, 0⟩
      = ReadRes.ok ⟨[['x'], ['"', ' ', ' ', 'y', ' ', ' ', '"']], 1⟩ ⟨[], 1, 0⟩ ∧
    (['"', ' ', ' ', 'y', ' ', ' ', '"'] : List Char) ≠ [' ', ' ', 'y', ' ', ' '] := by
  exact ⟨by decide, by decide⟩

/-- Claim C2, amended: with trim_whitespace enabled, on the claimed input
the space after the delimiter starts the second field, so its quote
character does not open quoted mode and the whole field is trimmed as an
unquoted field, keeping the quote characters; without that space (and with
a terminating newline) the second field is decoded as quoted and its inner
whitespace is preserved while the unquoted first field is trimmed. -/
theorem claim_c2 :
    csvkit_read_row { csvkit_config_default with trim_whitespace := true }
        ⟨[' ', ' ', 'x', ' ', ' ', ',', ' ', '"', ' ', ' ', 'y', ' ', ' ', '"'], 0, 0⟩
      = ReadRes.ok ⟨[['x'], ['"', ' ', ' ', 'y', ' ', ' ', '"']], 1⟩ ⟨[], 1, 0⟩ ∧
    csvkit_read_row { csvkit_config_default with trim_whitespace := true }
        ⟨[' ', ' ', 'x', ' ', ' ', ',', '"', ' ', ' ', 'y', ' ', ' ', '"', '\n'], 0, 0⟩
      = ReadRes.ok ⟨[['x'], [' ', ' ', 'y', ' ', ' ']], 1⟩ ⟨[], 1, 0⟩ := by
  exact ⟨by decide, by decide⟩

/-- Counterexample to claim C5: on input consisting of a quoted field whose
closing quote is the last character of the source, the quote is read as an
escape character followed by end-of-input, the loop stops while still inside
quotes, and csvkit_read_row reports a parse error instead of returning the
row with field ab. -/
theorem claim_c5_counterexample :
    csvkit_read_row csvkit_config_default ⟨['"', 'a', 'b', '"'], 0, 0⟩
      = ReadRes.perr ⟨[], 0, 0⟩ ∧
    csvkit_read_row csvkit_config_default ⟨['"', 'a', 'b', '"'], 0, 0⟩
      ≠ ReadRes.ok ⟨[['a', 'b']], 1⟩ ⟨[], 1, 0⟩ := by
  exact ⟨by decide, by decide⟩

/-- Claim C5, amended: when end-of-input immediately follows the escape
character inside a quoted field, the loop stops reading, but it is still
inside quotes, so the unterminated-quote check fires: the accumulated row is
discarded and a Parse error is returned rather than the row. -/
theorem claim_c5 :
    (∀ (cfg : csvkit_config_t) (buffer : List Char) (fields : List (List Char)) (fs fq : Bool),
        parseRowRun cfg [cfg.escape_char] buffer fields true fs fq = RowRes.perr []) ∧
    csvkit_read_row csvkit_config_default ⟨['"', 'a', 'b', '"'], 0, 0⟩
      = ReadRes.perr ⟨[], 0, 0⟩ := by
  exact ⟨fun cfg buffer fields fs fq => step_escape_eof cfg buffer fields fs fq, by decide⟩

/-- Claim C7: when escape_char differs from quote_char and, inside a quoted
field, the escape character is followed by a character that is neither
quote_char nor escape_char, the escape character is emitted literally and
the following character is then processed as a normal input character in the
same position. -/
theorem claim_c7 :
    ∀ (cfg : csvkit_config_t) (next : Char) (rest buffer : List Char)
      (fields : List (List Char)) (fs fq : Bool),
      cfg.escape_char ≠ cfg.quote_char → next ≠ cfg.quote_char → next ≠ cfg.escape_char →
      parseRowRun cfg (cfg.escape_char :: next :: rest) buffer fields true fs fq
        = parseRowRun cfg (next :: rest) (buffer ++ [cfg.escape_char]) fields true fs fq := by
  intro cfg next rest buffer fields fs fq h3 h1 h2
  rw [step_escape_other cfg next rest buffer fields fs fq h1 h2 h3]
  rw [step_append_quoted cfg next rest (buffer ++ [cfg.escape_char]) fields fs fq h2 h1]
  simp

/-- Witness for claim C7 at a concrete dialect and input. -/
theorem claim_c7_witness :
    parseRowRun { csvkit_config_default with escape_char := '\\' } ['\\', 'z'] [] [] true true false
      = parseRowRun { csvkit_config_default with escape_char := '\\' } ['z'] ['\\'] [] true true false :=
  claim_c7 { csvkit_config_default with escape_char := '\\' } 'z' [] [] [] true false
    (by decide) (by decide) (by decide)



/-- With empty-row skipping off, a successful csvkit_read_row increments the
row counter by exactly one, both on the returned row and in the parser. -/
theorem read_row_ok_row_number (cfg : csvkit_config_t)
    (hskip : cfg.skip_empty_rows = false) :
    ∀ (fuel : Nat) (st : ParserState) (row : csvkit_row_t) (st2 : ParserState),
      readRowF cfg fuel st = ReadRes.ok row st2 →
      row.row_number = st.row_number + 1 ∧ st2.row_number = st.row_number + 1 := by
  intro fuel
  cases fuel with
  | zero => intro st row st2 h; exact ReadRes.noConfusion h
  | succ k =>
    intro st row st2 h
    rw [readRowF] at h
    revert h
    cases hp : parse_row_internal cfg st.input with
    | eofSig rest => intro h; exact ReadRes.noConfusion h
    | perr rest => intro h; exact ReadRes.noConfusion h
    | ok fields rest =>
      intro h
      simp only [hskip] at h
      rw [if_neg (by simp)] at h
      repeat' split at h
      all_goals first
        | exact ReadRes.noConfusion h
        | (injection h with h1 h2; subst h1 h2; exact ⟨rfl, rfl⟩)

/-- With empty-row skipping off, the i-th row returned by repeated reads
carries row number (initial counter + i + 1). -/
theorem readAll_row_numbers (cfg : csvkit_config_t)
    (hskip : cfg.skip_empty_rows = false) :
    ∀ (fuel : Nat) (st : ParserState) (i : Nat) (row : csvkit_row_t),
      ((readAllF cfg fuel st).1).get? i = some row →
      row.row_number = st.row_number + i + 1 := by
  intro fuel
  induction fuel with
  | zero => intro st i row h; simp [readAllF] at h
  | succ k ih =>
    intro st i row h
    revert h
    cases hr : csvkit_read_row cfg st with
    | eof st2 => intro h; rw [readAllF, hr] at h; simp at h
    | perr st2 => intro h; rw [readAllF, hr] at h; simp at h
    | ok row1 st2 =>
      have key := read_row_ok_row_number cfg hskip (st.input.length + 1) st row1 st2 hr
      have hval : readAllF cfg (k + 1) st
          = (row1 :: (readAllF cfg k st2).1, (readAllF cfg k st2).2) := by
        rw [readAllF, hr]
      intro h
      rw [hval] at h
      cases i with
      | zero =>
        simp at h
        rw [← h]
        exact key.1
      | succ j =>
        simp only [List.get?_cons_succ] at h
        have := ih st2 j row h
        rw [this, key.2]
        omega


/-- Claim C3: in strict mode the first surviving row establishes the
expected field count; every later surviving row with a different field
count is discarded and reported as a Parse error; concretely rows a,b,c
then a,b succeed then fail, with the first row unaffected. -/
theorem claim_c3 :
    (∀ (cfg : csvkit_config_t) (st : ParserState) (fields : List (List Char)) (rest : List Char),
        cfg.strict_mode = true → st.expected_field_count = 0 →
        parse_row_internal cfg st.input = RowRes.ok fields rest →
        ¬(cfg.skip_empty_rows = true ∧ rowFieldsEmpty fields = true) →
        csvkit_read_row cfg st = ReadRes.ok ⟨fields, st.row_number + 1⟩
          ⟨rest, st.row_number + 1, fields.length⟩) ∧
    (∀ (cfg : csvkit_config_t) (st : ParserState) (fields : List (List Char)) (rest : List Char),
        cfg.strict_mode = true → st.expected_field_count ≠ 0 →
        parse_row_internal cfg st.input = RowRes.ok fields rest →
        ¬(cfg.skip_empty_rows = true ∧ rowFieldsEmpty fields = true) →
        fields.length ≠ st.expected_field_count →
        csvkit_read_row cfg st
          = ReadRes.perr ⟨rest, st.row_number + 1, st.expected_field_count⟩) ∧
    (csvkit_read_row { csvkit_config_default with strict_mode := true }
        ⟨['a', ',', 'b', ',', 'c', '\n', 'a', ',', 'b'], 0, 0⟩
      = ReadRes.ok ⟨[['a'], ['b'], ['c']], 1⟩ ⟨['a', ',', 'b'], 1, 3⟩) ∧
    (csvkit_read_row { csvkit_config_default with strict_mode := true }
        ⟨['a', ',', 'b'], 1, 3⟩ = ReadRes.perr ⟨[], 2, 3⟩) := by
  refine ⟨?_, ?_, by decide, by decide⟩
  · intro cfg st fields rest hstrict hexp hp hskip
    exact read_row_strict_first cfg st fields rest hp hskip hstrict hexp
  · intro cfg st fields rest hstrict hexp hp hskip hmis
    exact read_row_strict_mismatch cfg st fields rest hp hskip hstrict hexp hmis

/-- Witness for claim C3: the strict-mode scenario applied through the
general parts of the claim. -/
theorem claim_c3_witness :
    csvkit_read_row { csvkit_config_default with strict_mode := true }
        ⟨['a', ',', 'b', ',', 'c', '\n', 'a', ',', 'b'], 0, 0⟩
      = ReadRes.ok ⟨[['a'], ['b'], ['c']], 1⟩ ⟨['a', ',', 'b'], 1, 3⟩ ∧
    csvkit_read_row { csvkit_config_default with strict_mode := true }
        ⟨['a', ',', 'b'], 1, 3⟩ = ReadRes.perr ⟨[], 2, 3⟩ :=
  ⟨claim_c3.1 { csvkit_config_default with strict_mode := true }
      ⟨['a', ',', 'b', ',', 'c', '\n', 'a', ',', 'b'], 0, 0⟩
      [['a'], ['b'], ['c']] ['a', ',', 'b'] rfl rfl (by decide) (by decide),
   claim_c3.2.1 { csvkit_config_default with strict_mode := true }
      ⟨['a', ',', 'b'], 1, 3⟩ [['a'], ['b']] [] rfl (by decide) (by decide)
      (by decide) (by decide)⟩

/-- Counterexample to claim C4: with skip_empty_rows enabled on input
a, empty line, b, the second returned row carries row_number 3, not 2. -/
theorem claim_c4_counterexample :
    (readAll { csvkit_config_default with skip_empty_rows := true }
        ['a', '\n', '\n', 'b', '\n']).1
      = [⟨[['a']], 1⟩, ⟨[['b']], 3⟩] ∧ (3 : Nat) ≠ 2 := by
  exact ⟨by decide, by decide⟩

/-- Claim C4, amended: row_number counts every successfully decoded row,
including empty rows discarded by skip_empty_rows (the counter advances on
a skipped row).  With skip_empty_rows off the n-th returned row carries
row_number n; with skipping on, returned rows keep their position among all
decoded rows, so numbers may be skipped. -/
theorem claim_c4 :
    ((readAll { csvkit_config_default with skip_empty_rows := true }
        ['a', '\n', '\n', 'b', '\n']).1
      = [⟨[['a']], 1⟩, ⟨[['b']], 3⟩]) ∧
    (∀ (cfg : csvkit_config_t) (input : List Char), cfg.skip_empty_rows = false →
        ∀ (i : Nat) (row : csvkit_row_t),
          ((readAll cfg input).1).get? i = some row → row.row_number = i + 1) := by
  refine ⟨by decide, ?_⟩
  intro cfg input hskip i row h
  have := readAll_row_numbers cfg hskip (input.length + 1) ⟨input, 0, 0⟩ i row h
  simpa using this

/-- Witness for claim C4 at a concrete two-row source. -/
theorem claim_c4_witness :
    (⟨[['b']], 2⟩ : csvkit_row_t).row_number = 1 + 1 :=
  claim_c4.2 csvkit_config_default ['a', '\n', 'b', '\n'] rfl 1 ⟨[['b']], 2⟩ (by decide)



/-- Characterization of needs_quoting: a field needs quoting exactly when it
contains the delimiter, the quote character, a newline or a carriage
return. -/
theorem needs_quoting_iff (field : List Char) (d q : Char) :
    needs_quoting field d q = true ↔
      ∃ c, c ∈ field ∧ (c = d ∨ c = q ∨ c = '\n' ∨ c = '\r') := by
  induction field with
  | nil => simp [needs_quoting]
  | cons a l ih =>
    unfold needs_quoting
    split
    · constructor
      · intro _
        exact ⟨a, List.mem_cons_self a l, by assumption⟩
      · intro _
        rfl
    · rw [ih]
      constructor
      · rintro ⟨c, hc, hp⟩
        exact ⟨c, List.mem_cons_of_mem a hc, hp⟩
      · rintro ⟨c, hc, hp⟩
        rcases List.mem_cons.mp hc with h1 | h1
        · subst h1
          exact absurd hp (by assumption)
        · exact ⟨c, h1, hp⟩

/-- The tail of the field loop emits a delimiter before every field. -/
theorem writeRowGo_false_flatten (cfg : csvkit_config_t) :
    ∀ fields : List (Option (List Char)),
      writeRowGo cfg fields false
        = (fields.map fun g => cfg.delimiter :: writeField cfg (g.getD [])).flatten := by
  intro fields
  induction fields with
  | nil => rfl
  | cons f rest ih => simp [writeRowGo, ih]

/-- A null field is encoded exactly like an empty field. -/
theorem writeRow_null_field (cfg : csvkit_config_t) :
    ∀ (pre post : List (Option (List Char))) (isFirst : Bool),
      writeRowGo cfg (pre ++ none :: post) isFirst
        = writeRowGo cfg (pre ++ some [] :: post) isFirst := by
  intro pre
  induction pre with
  | nil => intro post isFirst; rfl
  | cons f rest ih => intro post isFirst; simp [writeRowGo, ih]

/-- Claim C6: csvkit_writer_write_row writes the fields in order with a
delimiter before every field but the first, quotes a field exactly when it
contains the delimiter, quote_char, newline or carriage return, treats a
null field as the empty string, and appends a single newline; the concrete
example of the specification holds. -/
theorem claim_c6 :
    (csvkit_writer_write_row csvkit_config_default
        [some ['a'], some ['b', ',', 'c'], some ['d', '"', 'e'], some ['f', '\n', 'g']]
      = ['a', ',', '"', 'b', ',', 'c', '"', ',', '"', 'd', '"', '"', 'e', '"', ',',
         '"', 'f', '\n', 'g', '"', '\n']) ∧
    (∀ (field : List Char) (d q : Char),
        needs_quoting field d q = true ↔
          ∃ c, c ∈ field ∧ (c = d ∨ c = q ∨ c = '\n' ∨ c = '\r')) ∧
    (∀ (cfg : csvkit_config_t) (f : Option (List Char)) (rest : List (Option (List Char))),
        csvkit_writer_write_row cfg (f :: rest)
          = writeField cfg (f.getD [])
              ++ (rest.map fun g => cfg.delimiter :: writeField cfg (g.getD [])).flatten
              ++ ['\n']) ∧
    (∀ (cfg : csvkit_config_t) (pre post : List (Option (List Char))),
        csvkit_writer_write_row cfg (pre ++ none :: post)
          = csvkit_writer_write_row cfg (pre ++ some [] :: post)) ∧
    (∀ (cfg : csvkit_config_t) (fields : List (Option (List Char))),
        (csvkit_writer_write_row cfg fields).getLast? = some '\n') := by
  refine ⟨by decide, needs_quoting_iff, ?_, ?_, ?_⟩
  · intro cfg f rest
    simp [csvkit_writer_write_row, writeRowGo, writeRowGo_false_flatten]
  · intro cfg pre post
    simp [csvkit_writer_write_row, writeRow_null_field]
  · intro cfg fields
    exact List.getLast?_concat _



/-- With trimming off, field finalization returns the buffer unchanged. -/
theorem finishField_no_trim (cfg : csvkit_config_t) (htrim : cfg.trim_whitespace = false)
    (fq : Bool) (b : List Char) : finishField cfg fq b = b := by
  simp [finishField, htrim]

/-- A field that needs no quoting contains none of the special characters. -/
theorem needs_quoting_eq_false_forall (fd : List Char) (d q : Char)
    (h : needs_quoting fd d q = false) :
    ∀ c ∈ fd, c ≠ d ∧ c ≠ q ∧ c ≠ '\n' ∧ c ≠ '\r' := by
  intro c hc
  refine ⟨?_, ?_, ?_, ?_⟩ <;> intro he <;>
    (have ht : needs_quoting fd d q = true := (needs_quoting_iff fd d q).mpr ⟨c, hc, by tauto⟩;
     rw [h] at ht; exact Bool.noConfusion ht)

/-- Reading a run of ordinary characters outside quotes appends them all to
the field buffer. -/
theorem parse_unquoted_segment (cfg : csvkit_config_t) :
    ∀ (cs : List Char), (∀ c ∈ cs, c ≠ cfg.delimiter ∧ c ≠ cfg.quote_char ∧ c ≠ '\n' ∧ c ≠ '\r') →
      ∀ (rest b : List Char) (f : List (List Char)) (fs fq : Bool),
      parseRowRun cfg (cs ++ rest) b f false fs fq
        = parseRowRun cfg rest (b ++ cs) f false (fs || !cs.isEmpty) fq := by
  intro cs
  induction cs with
  | nil => intro _ rest b f fs fq; simp
  | cons c cs' ih =>
    intro h rest b f fs fq
    obtain ⟨hd, hq, hn, hr⟩ := h c (List.mem_cons_self c cs')
    have h' : ∀ x ∈ cs', x ≠ cfg.delimiter ∧ x ≠ cfg.quote_char ∧ x ≠ '\n' ∧ x ≠ '\r' :=
      fun x hx => h x (List.mem_cons_of_mem c hx)
    rw [List.cons_append, step_append_unquoted cfg c (cs' ++ rest) b f fs fq hr hq hd hn,
      ih h' rest (b ++ [c]) f true fq]
    simp

/-- Reading the writer-encoded body of a quoted field appends the original
content to the field buffer. -/
theorem parse_quoted_content (cfg : csvkit_config_t) :
    ∀ (cs : List Char), (∀ c ∈ cs, c ≠ cfg.escape_char) →
      ∀ (rest b : List Char) (f : List (List Char)) (fq : Bool),
      parseRowRun cfg (quoteEncode cfg cs ++ rest) b f true true fq
        = parseRowRun cfg rest (b ++ cs) f true true fq := by
  intro cs
  induction cs with
  | nil => intro _ rest b f fq; simp [quoteEncode]
  | cons c cs' ih =>
    intro h rest b f fq
    have hce : c ≠ cfg.escape_char := h c (List.mem_cons_self c cs')
    have h' : ∀ x ∈ cs', x ≠ cfg.escape_char := fun x hx => h x (List.mem_cons_of_mem c hx)
    by_cases hcq : c = cfg.quote_char
    · subst hcq
      have henc : quoteEncode cfg (cfg.quote_char :: cs')
          = cfg.escape_char :: cfg.quote_char :: quoteEncode cfg cs' := by
        rw [quoteEncode]
        simp
      rw [henc, List.cons_append, List.cons_append,
        step_escape_quote cfg (quoteEncode cfg cs' ++ rest) b f true fq,
        ih h' rest (b ++ [cfg.quote_char]) f fq]
      simp
    · have henc : quoteEncode cfg (c :: cs') = c :: quoteEncode cfg cs' := by
        rw [quoteEncode]
        simp [hcq]
      rw [henc, List.cons_append,
        step_append_quoted cfg c (quoteEncode cfg cs' ++ rest) b f true fq hce hcq,
        ih h' rest (b ++ [c]) f fq]
      simp

/-- Reading one writer-encoded field from the start of a fresh field leaves
its original content as the field buffer. -/
theorem parse_written_field (cfg : csvkit_config_t)
    (heq : cfg.escape_char ≠ cfg.quote_char)
    (hqr : cfg.quote_char ≠ '\r') (hstrict : cfg.strict_mode = false) :
    ∀ (fd rest : List Char) (f : List (List Char)), (∀ c ∈ fd, c ≠ cfg.escape_char) →
      ∃ fs2 fq2, parseRowRun cfg (writeField cfg fd ++ rest) [] f false false false
        = parseRowRun cfg rest fd f false fs2 fq2 := by
  intro fd rest f hclean
  unfold writeField
  by_cases hnq : needs_quoting fd cfg.delimiter cfg.quote_char = true
  · refine ⟨true, true, ?_⟩
    rw [if_pos hnq]
    rw [List.cons_append, step_quote_open cfg (quoteEncode cfg fd ++ [cfg.quote_char] ++ rest)
      [] f false hqr]
    rw [List.append_assoc (quoteEncode cfg fd) [cfg.quote_char] rest]
    rw [parse_quoted_content cfg fd hclean ([cfg.quote_char] ++ rest) [] f true]
    simp only [List.nil_append, List.singleton_append]
    rw [step_quote_close cfg rest fd f true true heq hstrict]
  · have hfacts := needs_quoting_eq_false_forall fd cfg.delimiter cfg.quote_char
      (Bool.not_eq_true _ ▸ hnq)
    refine ⟨false || !fd.isEmpty, false, ?_⟩
    rw [if_neg hnq]
    rw [parse_unquoted_segment cfg fd hfacts rest [] f false false]
    simp

/-- The tail of the field loop with at least one field prepends a
delimiter. -/
theorem writeRowGo_false_cons (cfg : csvkit_config_t) (f : Option (List Char))
    (rest : List (Option (List Char))) :
    writeRowGo cfg (f :: rest) false = cfg.delimiter :: writeRowGo cfg (f :: rest) true := by
  simp [writeRowGo]

/-- Parsing the writer-encoded body of a row followed by a newline yields
exactly the written fields, appended to those already decoded. -/
theorem parse_written_row_body (cfg : csvkit_config_t)
    (heq : cfg.escape_char ≠ cfg.quote_char)
    (hdq : cfg.delimiter ≠ cfg.quote_char)
    (hqr : cfg.quote_char ≠ '\r') (hqn : cfg.quote_char ≠ '\n')
    (hdr : cfg.delimiter ≠ '\r') (hdn : cfg.delimiter ≠ '\n')
    (hstrict : cfg.strict_mode = false) (htrim : cfg.trim_whitespace = false) :
    ∀ (fds : List (List Char)), fds ≠ [] →
      (∀ fd ∈ fds, ∀ c ∈ fd, c ≠ cfg.escape_char) →
      ∀ (rest : List Char) (accF : List (List Char)),
      parseRowRun cfg (writeRowGo cfg (fds.map some) true ++ '\n' :: rest) [] accF false false false
        = RowRes.ok (accF ++ fds) rest := by
  intro fds
  induction fds with
  | nil => intro hne; exact absurd rfl hne
  | cons fd fds' ih =>
    intro _ hclean rest accF
    have hcfd : ∀ c ∈ fd, c ≠ cfg.escape_char := hclean fd (List.mem_cons_self fd fds')
    have hcfds' : ∀ g ∈ fds', ∀ c ∈ g, c ≠ cfg.escape_char :=
      fun g hg => hclean g (List.mem_cons_of_mem fd hg)
    cases fds' with
    | nil =>
      simp only [List.map_cons, List.map_nil, writeRowGo, Option.getD_some, if_pos,
        List.append_nil]
      obtain ⟨fs2, fq2, hf⟩ := parse_written_field cfg heq hqr hstrict fd ('\n' :: rest)
        accF hcfd
      simp only [List.nil_append] at hf ⊢
      rw [hf, step_newline cfg rest fd accF fs2 fq2 hqn hdn, finishField_no_trim cfg htrim]
    | cons g gs =>
      have hbody : writeRowGo cfg ((fd :: g :: gs).map some) true
          = writeField cfg fd ++ (cfg.delimiter :: writeRowGo cfg ((g :: gs).map some) true) := by
        simp [writeRowGo]
      rw [hbody]
      obtain ⟨fs2, fq2, hf⟩ := parse_written_field cfg heq hqr hstrict fd
        (cfg.delimiter :: (writeRowGo cfg ((g :: gs).map some) true ++ '\n' :: rest)) accF hcfd
      rw [List.append_assoc, List.cons_append, hf,
        step_delimiter cfg (writeRowGo cfg ((g :: gs).map some) true ++ '\n' :: rest) fd accF
          fs2 fq2 hdr hdq,
        finishField_no_trim cfg htrim,
        ih (by simp) hcfds' rest (accF ++ [fd])]
      simp


/-- One written row is decoded back exactly, leaving the remaining text. -/
theorem parse_written_row (cfg : csvkit_config_t)
    (heq : cfg.escape_char ≠ cfg.quote_char)
    (hdq : cfg.delimiter ≠ cfg.quote_char)
    (hqr : cfg.quote_char ≠ '\r') (hqn : cfg.quote_char ≠ '\n')
    (hdr : cfg.delimiter ≠ '\r') (hdn : cfg.delimiter ≠ '\n')
    (hstrict : cfg.strict_mode = false) (htrim : cfg.trim_whitespace = false)
    (fds : List (List Char)) (hne : fds ≠ [])
    (hclean : ∀ fd ∈ fds, ∀ c ∈ fd, c ≠ cfg.escape_char) (rest : List Char) :
    parse_row_internal cfg (csvkit_writer_write_row cfg (fds.map some) ++ rest)
      = RowRes.ok fds rest := by
  unfold parse_row_internal csvkit_writer_write_row
  rw [List.append_assoc, List.singleton_append]
  rw [parse_written_row_body cfg heq hdq hqr hqn hdr hdn hstrict htrim fds hne hclean rest []]
  simp

/-- Reading back a written sequence of rows returns exactly the written
fields and then reports end-of-input. -/
theorem read_written_rows (cfg : csvkit_config_t)
    (heq : cfg.escape_char ≠ cfg.quote_char)
    (hdq : cfg.delimiter ≠ cfg.quote_char)
    (hqr : cfg.quote_char ≠ '\r') (hqn : cfg.quote_char ≠ '\n')
    (hdr : cfg.delimiter ≠ '\r') (hdn : cfg.delimiter ≠ '\n')
    (hstrict : cfg.strict_mode = false) (htrim : cfg.trim_whitespace = false)
    (hskip : cfg.skip_empty_rows = false) :
    ∀ (rows : List (List (List Char))) (fuel rn exp : Nat),
      (∀ r ∈ rows, r ≠ []) →
      (∀ r ∈ rows, ∀ fd ∈ r, ∀ c ∈ fd, c ≠ cfg.escape_char) →
      (writeRows cfg rows).length < fuel →
      (readAllF cfg fuel ⟨writeRows cfg rows, rn, exp⟩).1.map csvkit_row_t.fields = rows ∧
      (readAllF cfg fuel ⟨writeRows cfg rows, rn, exp⟩).2
        = ReadRes.eof ⟨[], rn + rows.length, exp⟩ := by
  intro rows
  induction rows with
  | nil =>
    intro fuel rn exp _ _ hfuel
    cases fuel with
    | zero => exact absurd hfuel (by simp [writeRows])
    | succ k =>
      rw [readAllF]
      rw [read_row_of_eofSig cfg ⟨writeRows cfg [], rn, exp⟩ [] rfl]
      simp
  | cons r rows' ih =>
    intro fuel rn exp hne hclean hfuel
    have hner : r ≠ [] := hne r (List.mem_cons_self r rows')
    have hcr : ∀ fd ∈ r, ∀ c ∈ fd, c ≠ cfg.escape_char :=
      hclean r (List.mem_cons_self r rows')
    have hparse : parse_row_internal cfg (writeRows cfg (r :: rows'))
        = RowRes.ok r (writeRows cfg rows') := by
      rw [writeRows]
      exact parse_written_row cfg heq hdq hqr hqn hdr hdn hstrict htrim r hner hcr
        (writeRows cfg rows')
    have hread : csvkit_read_row cfg ⟨writeRows cfg (r :: rows'), rn, exp⟩
        = ReadRes.ok ⟨r, rn + 1⟩ ⟨writeRows cfg rows', rn + 1, exp⟩ :=
      read_row_of_ok cfg ⟨writeRows cfg (r :: rows'), rn, exp⟩ r (writeRows cfg rows')
        hparse (by simp [hskip]) hstrict
    cases fuel with
    | zero => exact absurd hfuel (Nat.not_lt_zero _)
    | succ k =>
      have hlen1 : 1 ≤ (csvkit_writer_write_row cfg (r.map some)).length := by
        simp [csvkit_writer_write_row]
      have hsplit : writeRows cfg (r :: rows')
          = csvkit_writer_write_row cfg (r.map some) ++ writeRows cfg rows' := rfl
      rw [hsplit, List.length_append] at hfuel
      have hfuel' : (writeRows cfg rows').length < k := by omega
      have hres := ih k (rn + 1) exp (fun x hx => hne x (List.mem_cons_of_mem r hx))
        (fun x hx => hclean x (List.mem_cons_of_mem r hx)) hfuel'
      rw [readAllF, hread]
      refine ⟨?_, ?_⟩
      · simp only [List.map_cons]
        rw [hres.1]
      · rw [hres.2]
        simp only [List.length_cons]
        have harith : rn + 1 + rows'.length = rn + (rows'.length + 1) := by omega
        rw [harith]


/-- Counterexample to claim C1: the dialect with delimiter comma, quote
double-quote and escape backslash is valid and pairwise distinct, the single
field consists of printable characters, yet the written text parses back to
a different field: the writer quotes the field and escapes the inner quote,
but does not escape the literal backslash in front of it, so the parser
reads backslash backslash as an escaped escape and the following quote as
the closing quote. -/
theorem claim_c1_counterexample :
    parser_validate_config { csvkit_config_default with escape_char := '\\' } = true ∧
    ({ csvkit_config_default with escape_char := '\\' } : csvkit_config_t).delimiter
      ≠ ({ csvkit_config_default with escape_char := '\\' } : csvkit_config_t).quote_char ∧
    ({ csvkit_config_default with escape_char := '\\' } : csvkit_config_t).quote_char
      ≠ ({ csvkit_config_default with escape_char := '\\' } : csvkit_config_t).escape_char ∧
    ({ csvkit_config_default with escape_char := '\\' } : csvkit_config_t).escape_char
      ≠ ({ csvkit_config_default with escape_char := '\\' } : csvkit_config_t).delimiter ∧
    (∀ c ∈ ['a', '\\', '"', 'b'], printableChar c = true) ∧
    (readAll { csvkit_config_default with escape_char := '\\' }
        (writeRows { csvkit_config_default with escape_char := '\\' }
          [[['a', '\\', '"', 'b']]])).1.map csvkit_row_t.fields
      ≠ [[['a', '\\', '"', 'b']]] := by
  refine ⟨by decide, by decide, by decide, by decide, by decide, by decide⟩

/-- Claim C1, amended: for every valid dialect whose delimiter, quote_char
and escape_char are pairwise distinct, with trimming, empty-row skipping and
strict mode off, writing any sequence of non-empty rows of printable strings
that do not contain the escape character and parsing the produced text back
with the same dialect yields exactly the original rows, followed by the
end-of-input signal. -/
theorem claim_c1 :
    ∀ (cfg : csvkit_config_t) (rows : List (List (List Char))),
      parser_validate_config cfg = true →
      cfg.escape_char ≠ cfg.quote_char → cfg.escape_char ≠ cfg.delimiter →
      cfg.trim_whitespace = false → cfg.skip_empty_rows = false →
      cfg.strict_mode = false →
      (∀ r ∈ rows, r ≠ []) →
      (∀ r ∈ rows, ∀ fd ∈ r, ∀ c ∈ fd, printableChar c = true ∧ c ≠ cfg.escape_char) →
      (readAll cfg (writeRows cfg rows)).1.map csvkit_row_t.fields = rows ∧
      (readAll cfg (writeRows cfg rows)).2 = ReadRes.eof ⟨[], rows.length, 0⟩ := by
  intro cfg rows hvalid heq hed htrim hskip hstrict hne hclean
  obtain ⟨hdn, hdr, hdq, hqn, hqr, hen, her⟩ := (parser_validate_config_iff cfg).mp hvalid
  have hclean' : ∀ r ∈ rows, ∀ fd ∈ r, ∀ c ∈ fd, c ≠ cfg.escape_char :=
    fun r hr fd hfd c hc => ((hclean r hr fd hfd c hc).2)
  have := read_written_rows cfg heq hdq hqr hqn hdr hdn hstrict htrim hskip rows
    ((writeRows cfg rows).length + 1) 0 0 hne hclean' (Nat.lt_succ_self _)
  simpa [readAll] using this

/-- Witness for claim C1 at a concrete dialect and rows. -/
theorem claim_c1_witness :
    (readAll { csvkit_config_default with escape_char := '\\' }
        (writeRows { csvkit_config_default with escape_char := '\\' }
          [[['a'], ['b', ',', 'c']], [['x', '"', 'y']]])).1.map csvkit_row_t.fields
      = [[['a'], ['b', ',', 'c']], [['x', '"', 'y']]] ∧
    (readAll { csvkit_config_default with escape_char := '\\' }
        (writeRows { csvkit_config_default with escape_char := '\\' }
          [[['a'], ['b', ',', 'c']], [['x', '"', 'y']]])).2
      = ReadRes.eof ⟨[], 2, 0⟩ :=
  claim_c1 { csvkit_config_default with escape_char := '\\' }
    [[['a'], ['b', ',', 'c']], [['x', '"', 'y']]]
    (by decide) (by decide) (by decide) rfl rfl rfl (by decide) (by decide)


end Csvkit
